import Mathlib

/-!
Verification of the parallel task-dispatch harness of the CIERA-HS-Program
repository (OldModule/parallel-python.ipynb).

The notebook's only systems-relevant fragment is a parallel task-dispatch
harness built on a process pool: a pure task function is mapped over a finite
ordered sequence of work items by `pool.map(task, data)` with a fixed number
of worker processes, and the results are collected in input order.

The dispatch operation itself (`multiprocessing.Pool` / `Pool.map`) is
standard-library code that is not part of this repository; following the
specification, it is modelled here as an execution parameterised by a
*schedule* — an assignment of work items to workers together with the order
in which items complete — so that properties quantifying over internal
scheduling (order preservation, determinism, schedule independence) can be
stated and proved.  The notebook's own code (the `task` functions, the `data`
list, the serial timing loop, the `sizes` array) is embedded directly from
the source.
-/

namespace ParallelPython

/-- Modelled from the spec: an internal execution schedule of the dispatcher
(`multiprocessing.Pool.map` is not part of the repository).  `assign` sends
each item index to the worker that executes it; `completion` is the order in
which item executions complete across the workers. -/
structure Schedule where
  assign : Nat → Nat
  completion : List Nat

/-- A schedule is valid for `n` items and `k` workers when there is at least
one worker, every item is assigned to an existing worker, and the completion
order is a permutation of the item indices (each item is executed exactly
once). -/
def Schedule.valid (s : Schedule) (n k : Nat) : Prop :=
  1 ≤ k ∧ (∀ i, i < n → s.assign i < k) ∧ s.completion.Perm (List.range n)

/-- Modelled from the spec: the workers' side of the dispatch.  As item
executions complete (in the order given by `c`), each produces its result
tagged with its input position. -/
def gather {α β : Type} (f : α → β) (I : List α) (c : List Nat) :
    List (Nat × β) :=
  c.filterMap (fun i => (I[i]?).map (fun x => (i, f x)))

/-- Modelled from the spec: the dispatcher's collection side.  The tagged
results received from the workers are reassembled positionally, in input
order, regardless of the order in which they completed. -/
def reassemble {β : Type} (n : Nat) (res : List (Nat × β)) : List β :=
  (List.range n).filterMap
    (fun i => (res.find? (fun p => p.1 == i)).map Prod.snd)

/-- The schedule the dispatcher uses by default: items are distributed
round-robin over the `k` workers and complete in index order. -/
def defaultSchedule (n k : Nat) : Schedule :=
  { assign := fun i => i % k, completion := List.range n }

/-- One dispatch execution under an explicit internal schedule. -/
def runWith {α β : Type} (f : α → β) (I : List α) (s : Schedule) : List β :=
  reassemble I.length (gather f I s.completion)

/-- Modelled from the spec: the dispatch operation
`run(task_function, items, worker_count)` (the notebook's
`pool.map(task, data)` with `Pool(processes=k)`). -/
def run {α β : Type} (f : α → β) (I : List α) (k : Nat) : List β :=
  runWith f I (defaultSchedule I.length k)

/-- The first task function of the notebook:
`def task(x): return x**2`. -/
def task (x : Int) : Int := x ^ 2

/-- The notebook's work-item list: `data = [0,1,2,3,4,5,6,7,8,9]`. -/
def data : List Int := [0, 1, 2, 3, 4, 5, 6, 7, 8, 9]

/-- The notebook's sequential baseline:
`output = []; for i in range(len(data)): output.append(task(data[i]))`. -/
def serialLoop {α β : Type} (f : α → β) (I : List α) : List β :=
  (List.range I.length).foldl
    (fun output i => output ++ ((I[i]?).map f).toList) []

/- ### Helper lemmas about the dispatcher -/

theorem gather_cons_some {α β : Type} (f : α → β) (I : List α) {j : Nat}
    {x : α} (c : List Nat) (hj : I[j]? = some x) :
    gather f I (j :: c) = (j, f x) :: gather f I c := by
  simp [gather, List.filterMap_cons, hj]

theorem gather_cons_none {α β : Type} (f : α → β) (I : List α) {j : Nat}
    (c : List Nat) (hj : I[j]? = none) :
    gather f I (j :: c) = gather f I c := by
  simp [gather, List.filterMap_cons, hj]

theorem find_gather {α β : Type} (f : α → β) (I : List α) {i : Nat} {x : α}
    (hx : I[i]? = some x) :
    ∀ c : List Nat, i ∈ c →
      (gather f I c).find? (fun p => p.1 == i) = some (i, f x) := by
  intro c
  induction c with
  | nil => intro h; cases h
  | cons j c ih =>
    intro hmem
    by_cases hji : j = i
    · subst hji
      rw [gather_cons_some f I c hx]
      simp [List.find?]
    · cases hj : I[j]? with
      | none =>
        rw [gather_cons_none f I c hj]
        exact ih (by
          rcases List.mem_cons.mp hmem with h | h
          · exact absurd h.symm hji
          · exact h)
      | some y =>
        rw [gather_cons_some f I c hj]
        have hne : (j == i) = false := by
          simp [hji]
        rw [List.find?_cons]
        simp only [hne]
        exact ih (by
          rcases List.mem_cons.mp hmem with h | h
          · exact absurd h.symm hji
          · exact h)

theorem filterMap_getElem_map {α β : Type} (f : α → β) :
    ∀ I : List α,
      (List.range I.length).filterMap (fun i => (I[i]?).map f) = I.map f := by
  intro I
  induction I with
  | nil => rfl
  | cons a as ih =>
    rw [List.length_cons, List.range_succ_eq_map]
    rw [List.filterMap_cons]
    simp only [List.getElem?_cons_zero, Option.map_some]
    rw [List.filterMap_map]
    have hcomp :
        ((fun i => ((a :: as)[i]?).map f) ∘ Nat.succ)
          = fun i => (as[i]?).map f := by
      funext i
      simp
    rw [hcomp, ih]
    rfl

/-- The central property of the dispatcher: under ANY schedule whose
completion order is a permutation of the item indices, reassembly recovers
exactly the input-order map of the task function over the items. -/
theorem runWith_eq_map {α β : Type} (f : α → β) (I : List α) (s : Schedule)
    (hperm : s.completion.Perm (List.range I.length)) :
    runWith f I s = I.map f := by
  unfold runWith reassemble
  rw [← filterMap_getElem_map f I]
  apply List.filterMap_congr
  intro i hi
  have hi' : i < I.length := List.mem_range.mp hi
  have hx : I[i]? = some I[i] := List.getElem?_eq_getElem hi'
  have hmem : i ∈ s.completion := hperm.mem_iff.mpr hi
  rw [find_gather f I hx s.completion hmem, hx]
  rfl

theorem run_eq_map {α β : Type} (f : α → β) (I : List α) (k : Nat) :
    run f I k = I.map f :=
  runWith_eq_map f I (defaultSchedule I.length k) (List.Perm.refl _)

theorem serialLoop_foldl {α β : Type} (h : α → Option β) :
    ∀ (l : List α) (acc : List β),
      l.foldl (fun out x => out ++ (h x).toList) acc = acc ++ l.filterMap h := by
  intro l
  induction l with
  | nil => intro acc; simp
  | cons x xs ih =>
    intro acc
    rw [List.foldl_cons, ih, List.filterMap_cons]
    cases hx : h x <;> simp

theorem serialLoop_eq_map {α β : Type} (f : α → β) (I : List α) :
    serialLoop f I = I.map f := by
  unfold serialLoop
  rw [serialLoop_foldl]
  rw [List.nil_append]
  exact filterMap_getElem_map f I

/- ### Fallible dispatch (failure propagation) -/

/-- Modelled from the spec: the dispatcher's collection of possibly-failed
worker results.  The first failure encountered aborts the whole collection;
no partial list of results survives. -/
def collectE {β ε : Type} : List (Nat × Except ε β) → Except ε (List (Nat × β))
  | [] => .ok []
  | (i, .ok b) :: rest => (collectE rest).map (fun l => (i, b) :: l)
  | (_, .error e) :: _ => .error e

/-- Dispatch of a fallible task under an explicit schedule: results are
gathered as they complete; any failure makes the whole call fail. -/
def runWithE {α β ε : Type} (f : α → Except ε β) (I : List α) (s : Schedule) :
    Except ε (List β) :=
  (collectE (gather f I s.completion)).map (reassemble I.length)

/-- Modelled from the spec: the dispatch operation for a task function that
may fail on some items (`Pool.map` re-raises a worker's exception in the
caller). -/
def runE {α β ε : Type} (f : α → Except ε β) (I : List α) (k : Nat) :
    Except ε (List β) :=
  runWithE f I (defaultSchedule I.length k)

/- ### Pool creation -/

/-- Failure signal of pool creation. -/
inductive PoolError where
  | resourceExhaustion
deriving DecidableEq

/-- Modelled from the spec: pool creation (`Pool(processes=k)`).  When the
requested worker count cannot be satisfied — abstracted by the `canSatisfy`
flag — creation fails with a resource-exhaustion error; otherwise it returns
a pool handle of `k` workers. -/
def createPool (k : Nat) (canSatisfy : Bool) : Except PoolError Nat :=
  if canSatisfy then .ok k else .error .resourceExhaustion

/-- Modelled from the spec: a dispatch call guarded by pool creation.  The
pool is created first; only if creation succeeds is anything dispatched. -/
def poolRun {α β : Type} (f : α → β) (I : List α) (k : Nat)
    (canSatisfy : Bool) : Except PoolError (List β) :=
  match createPool k canSatisfy with
  | .error e => .error e
  | .ok kw => .ok (run f I kw)

/- ### The array-sorting example -/

/-- A Python value as seen by the dispatcher in the sorting example: either
the interpreter's `None` or an ndarray (a finite list of elements). -/
inductive PyObj (γ : Type) where
  | none : PyObj γ
  | arr : List γ → PyObj γ
deriving DecidableEq

/-- Insertion of an element into a sorted list (helper of the sort model). -/
def insertSorted {γ : Type} (le : γ → γ → Bool) (x : γ) : List γ → List γ
  | [] => [x]
  | y :: ys => if le x y then x :: y :: ys else y :: insertSorted le x ys

/-- The sorted rearrangement of a list (helper of the sort model). -/
def pySortList {γ : Type} (le : γ → γ → Bool) : List γ → List γ
  | [] => []
  | x :: xs => insertSorted le x (pySortList le xs)

/-- `numpy.ndarray.sort()`: sorts the array IN PLACE and — crucially —
returns the Python value `None`, not the sorted array.  The pair holds the
mutated array followed by the call's return value. -/
def ndarraySort {γ : Type} (le : γ → γ → Bool) (a : List γ) :
    List γ × PyObj γ :=
  (pySortList le a, PyObj.none)

/-- The notebook's second task function:
`def task(N): rand = np.random.RandomState(42); a = rand.rand(N); return a.sort()`.
The generator `np.random.RandomState` is external library code, abstracted
as a function `gen` of the seed and the requested length; the source fixes
the seed to the literal `42`.  The function returns whatever `a.sort()`
returns. -/
def sortTask {γ : Type} (gen : Nat → Nat → List γ) (le : γ → γ → Bool)
    (N : Nat) : PyObj γ :=
  let rand := gen 42 N
  let a := rand
  (ndarraySort le a).2

/-- The same task function executed inside a worker process, with the
worker's own pre-existing state `procState` made explicit, and with the
intermediate values exposed: the generated array, the array after the
in-place sort, and the call's return value.  The body constructs a fresh
generator from the literal seed `42`, so `procState` never enters the
computation — mirroring that the source calls `np.random.RandomState(42)`
rather than consuming the process's global random stream. -/
def sortTaskTrace {γ σ : Type} (gen : Nat → Nat → List γ)
    (le : γ → γ → Bool) (procState : σ) (N : Nat) :
    List γ × List γ × PyObj γ :=
  let a := gen 42 N
  let sr := ndarraySort le a
  (a, sr.1, sr.2)

/-- The notebook's work-item list for the sorting example:
`sizes = np.repeat(5, 10)`. -/
def sizes : List Nat := List.replicate 10 5

/- ### Helper lemmas about fallible dispatch -/

theorem mem_gather {α β : Type} (f : α → β) (I : List α) {i : Nat} {x : α}
    (hx : I[i]? = some x) :
    ∀ c : List Nat, i ∈ c → (i, f x) ∈ gather f I c := by
  intro c
  induction c with
  | nil => intro h; cases h
  | cons j c ih =>
    intro hmem
    rcases List.mem_cons.mp hmem with h | h
    · subst h
      rw [gather_cons_some f I c hx]
      exact List.mem_cons_self _ _
    · cases hj : I[j]? with
      | none => rw [gather_cons_none f I c hj]; exact ih h
      | some y =>
        rw [gather_cons_some f I c hj]
        exact List.mem_cons_of_mem _ (ih h)

theorem collectE_error_of_mem {β ε : Type} {e : ε} {i : Nat} :
    ∀ l : List (Nat × Except ε β), (i, Except.error e) ∈ l →
      ∃ e', collectE l = Except.error e' := by
  intro l
  induction l with
  | nil => intro h; cases h
  | cons p rest ih =>
    intro hmem
    match p with
    | (j, Except.ok b) =>
      rcases List.mem_cons.mp hmem with h | h
      · exact absurd (congrArg Prod.snd h) (by simp)
      · obtain ⟨e', he'⟩ := ih h
        exact ⟨e', by simp [collectE, he', Except.map]⟩
    | (j, Except.error e2) => exact ⟨e2, rfl⟩

/- ### Claim theorems -/

/-- C1: for every finite ordered input sequence `I`, pure task function `f`,
and valid worker count `k ≥ 1`, the dispatch `run f I k` equals
`[f(x) for x in I]`: same length as `I`, position `i` holds `f (I[i])`, each
item processed exactly once, output order the input order. -/
theorem run_observationally_sequential {α β : Type} (f : α → β) (I : List α)
    (k : Nat) (hk : 1 ≤ k) :
    run f I k = I.map f ∧ (run f I k).length = I.length ∧
      ∀ i : Nat, (run f I k)[i]? = (I[i]?).map f := by
  have h := run_eq_map f I k
  refine ⟨h, ?_, ?_⟩
  · rw [h, List.length_map]
  · intro i
    rw [h, List.getElem?_map]

/-- Witness for C1 at `f = task`, `I = data`, `k = 3`. -/
theorem run_observationally_sequential_witness :
    1 ≤ 3 ∧ run task data 3 = data.map task :=
  ⟨by decide, (run_observationally_sequential task data 3 (by decide)).1⟩

/-- C2: with `f(x) = x**2`, `I = [0,…,9]`, `k = 3`, the dispatch returns
exactly `[0,1,4,9,16,25,36,49,64,81]`. -/
theorem run_square_concrete :
    run task data 3 = [0, 1, 4, 9, 16, 25, 36, 49, 64, 81] := by decide

/-- C3: if the task function fails on any single element of the input, the
whole dispatch call fails: the failure propagates and no partial or
truncated result sequence is returned. -/
theorem runE_fails_on_failure {α β ε : Type} (f : α → Except ε β)
    (I : List α) (k : Nat) (x : α) (hx : x ∈ I) (e : ε)
    (hf : f x = Except.error e) :
    ∃ e', runE f I k = Except.error e' := by
  obtain ⟨i, hi, hget⟩ := List.getElem_of_mem hx
  have hx' : I[i]? = some x := by rw [List.getElem?_eq_getElem hi, hget]
  have hmem : (i, f x) ∈ gather f I (List.range I.length) :=
    mem_gather f I hx' (List.range I.length) (List.mem_range.mpr hi)
  rw [hf] at hmem
  obtain ⟨e', he'⟩ := collectE_error_of_mem _ hmem
  refine ⟨e', ?_⟩
  unfold runE runWithE defaultSchedule
  simp only
  rw [he']
  rfl

/-- Witness for C3: a task failing at input `2` inside `[1, 2, 3]`. -/
theorem runE_fails_on_failure_witness :
    ((2 : Int) ∈ ([1, 2, 3] : List Int) ∧
      (fun x : Int => if x = 2 then (Except.error "boom" : Except String Int)
        else Except.ok (x ^ 2)) 2 = Except.error "boom") ∧
    ∃ e', runE (fun x : Int => if x = 2 then Except.error "boom"
      else Except.ok (x ^ 2)) [1, 2, 3] 3 = Except.error e' :=
  ⟨⟨by decide, rfl⟩,
    runE_fails_on_failure _ [1, 2, 3] 3 2 (by decide) "boom" rfl⟩

/-- C4: dispatch is deterministic in its arguments: two calls with the same
deterministic task function, items and worker count — each executing under
its own internal schedule — return identical result sequences. -/
theorem run_idempotent {α β : Type} (f : α → β) (I : List α)
    (s₁ s₂ : Schedule)
    (h₁ : s₁.completion.Perm (List.range I.length))
    (h₂ : s₂.completion.Perm (List.range I.length)) :
    runWith f I s₁ = runWith f I s₂ := by
  rw [runWith_eq_map f I s₁ h₁, runWith_eq_map f I s₂ h₂]

/-- Witness for C4: two executions of `task` over `data`, one completing in
index order, the other in reverse order, agree. -/
theorem run_idempotent_witness :
    ((List.range 10).Perm (List.range data.length) ∧
      ([9, 8, 7, 6, 5, 4, 3, 2, 1, 0] : List Nat).Perm
        (List.range data.length)) ∧
    runWith task data ⟨fun i => i % 3, List.range 10⟩ =
      runWith task data ⟨fun i => i % 3, [9, 8, 7, 6, 5, 4, 3, 2, 1, 0]⟩ :=
  ⟨⟨by decide, by decide⟩,
    run_idempotent task data _ _ (by decide) (by decide)⟩

/-- C5: the returned sequence is independent of the internal assignment of
items to workers and of completion order: under any valid schedule the
result equals the input-order map, hence equals `run`'s result. -/
theorem run_schedule_independent {α β : Type} (f : α → β) (I : List α)
    (k : Nat) (s : Schedule) (hs : s.valid I.length k) :
    runWith f I s = I.map f ∧ runWith f I s = run f I k := by
  have h := runWith_eq_map f I s hs.2.2
  exact ⟨h, h.trans (run_eq_map f I k).symm⟩

/-- Witness for C5: a shuffled schedule over `data` with 3 workers. -/
theorem run_schedule_independent_witness :
    Schedule.valid ⟨fun i => i % 3, [1, 0, 3, 2, 5, 4, 7, 6, 9, 8]⟩
      data.length 3 ∧
    runWith task data ⟨fun i => i % 3, [1, 0, 3, 2, 5, 4, 7, 6, 9, 8]⟩ =
      run task data 3 :=
  ⟨⟨by decide, by decide, by decide⟩,
    (run_schedule_independent task data 3 _
      ⟨by decide, by decide, by decide⟩).2⟩

/-- C6: dispatching with worker count `k = 1` returns exactly the result of
the purely sequential single-threaded loop that appends `f (I[i])` for each
index `i` in order. -/
theorem run_one_eq_serialLoop {α β : Type} (f : α → β) (I : List α) :
    run f I 1 = serialLoop f I := by
  rw [run_eq_map f I 1, serialLoop_eq_map f I]

/-- C7: dispatching the empty input returns the empty result sequence, and
no task execution is ever gathered from a worker. -/
theorem run_empty {α β : Type} (f : α → β) (k : Nat) :
    run f ([] : List α) k = [] ∧
      gather f ([] : List α) (defaultSchedule 0 k).completion = [] :=
  ⟨rfl, rfl⟩

/-- C8: when the requested worker count cannot be satisfied, the failure
occurs at pool creation, before any dispatch: the call reports resource
exhaustion, and its outcome is the same whatever the task function and the
input sequence — no item is processed, no partial work is observable. -/
theorem poolRun_fails_at_creation {α β : Type} (f : α → β) (I : List α)
    (k : Nat) :
    poolRun f I k false = Except.error PoolError.resourceExhaustion ∧
      ∀ (f' : α → β) (I' : List α),
        poolRun f I k false = poolRun f' I' k false :=
  ⟨rfl, fun _ _ => rfl⟩

/-- C9: the notebook's array-sorting task function returns `None` for every
input `N`, because the ndarray sort is in place and its return value is
returned directly; dispatching it over any size sequence — in particular
over `sizes` with 3 workers — yields a sequence consisting entirely of
`None`, not of sorted arrays. -/
theorem sortTask_returns_none {γ : Type} (gen : Nat → Nat → List γ)
    (le : γ → γ → Bool) (N : Nat) (I : List Nat) (k : Nat) :
    sortTask gen le N = PyObj.none ∧
      run (sortTask gen le) I k = List.replicate I.length PyObj.none ∧
      run (sortTask gen le) sizes 3 = List.replicate 10 PyObj.none := by
  have hconst : ∀ J : List Nat, ∀ kw : Nat,
      run (sortTask gen le) J kw = List.replicate J.length PyObj.none := by
    intro J kw
    rw [run_eq_map]
    rw [show sortTask gen le = fun _ => PyObj.none from rfl]
    exact List.map_const J PyObj.none
  exact ⟨rfl, hconst I k, hconst sizes 3⟩

/-- C10: the array-sorting task function is deterministic across invocations
and across worker processes: the fresh generator is constructed from the
fixed seed `42`, so for every `N`, two invocations in workers with different
process states generate identical arrays and produce identical results. -/
theorem sortTask_process_independent {γ σ₁ σ₂ : Type}
    (gen : Nat → Nat → List γ) (le : γ → γ → Bool)
    (s₁ : σ₁) (s₂ : σ₂) (N : Nat) :
    sortTaskTrace gen le s₁ N = sortTaskTrace gen le s₂ N ∧
      sortTask gen le N = sortTask gen le N :=
  ⟨rfl, rfl⟩

end ParallelPython
